import Mathlib

set_option autoImplicit false

namespace Bm

/-- A bookmark record, modelling the Go struct `Bookmark` from `src/main.go`
with its two json-tagged fields `name` and `path`. -/
structure Bookmark where
  name : String
  path : String
deriving DecidableEq, Repr

/-- Outcome of the `os.Stat` call in `Add`, abstracted to the three cases the
code distinguishes: success, an error for which `os.IsNotExist` is true, and
any other error (for which `os.IsNotExist` is false). -/
inductive StatResult
  | ok
  | notExist
  | otherErr
deriving DecidableEq, Repr

/-- The ambient process environment consulted by `Add`: the home directory
reported by `os.UserHomeDir` (`none` when that call fails), the current
working directory used by `filepath.Abs`, and the filesystem stat oracle. -/
structure Env where
  home : Option String
  cwd : String
  stat : String → StatResult

/-- The error conditions produced by the store operations, one constructor per
distinct `fmt.Errorf` site in `src/main.go`, carrying the data interpolated
into the message. -/
inductive BmError
  | duplicateName (name existingPath : String)
  | homeDirFailed
  | pathNotFound (path : String)
  | duplicatePath (existingName : String)
  | bookmarkNotFound (name : String)
deriving DecidableEq, Repr

/-- Whether the first character of a string is `c`.  For a one-byte ASCII
pattern this is exactly `strings.HasPrefix`, the test the Go code applies to
`~`, and the `path[0]` test of `filepath.IsAbs`. -/
def headIs (s : String) (c : Char) : Bool :=
  match s.data with
  | [] => false
  | d :: _ => d == c

/-- The string without its first character, modelling the byte slice
`path[1:]` taken after a successful one-byte prefix test. -/
def strTail (s : String) : String :=
  String.mk (s.data.drop 1)

/-- Split a character list on `/`, as `strings.Split` with a one-byte
separator does on the underlying bytes; the accumulator holds the current
component in reverse. -/
def splitSlash : List Char → List Char → List String
  | acc, [] => [String.mk acc.reverse]
  | acc, c :: cs =>
    if c = '/' then String.mk acc.reverse :: splitSlash [] cs
    else splitSlash (c :: acc) cs

/-- Component-stack processing of `path.Clean` (unix form of `filepath.Clean`):
empty and `.` components are dropped, `..` pops the previous component, or is
kept at the front of a relative path, or is dropped at the root of a rooted
path.  The stack holds the output components in reverse order. -/
def cleanLoop (rooted : Bool) : List String → List String → List String
  | stack, [] => stack
  | stack, c :: cs =>
    if c = "" ∨ c = "." then cleanLoop rooted stack cs
    else if c = ".." then
      match stack with
      | [] => cleanLoop rooted (if rooted then [] else [".."]) cs
      | top :: rest =>
        if top = ".." then cleanLoop rooted (".." :: top :: rest) cs
        else cleanLoop rooted rest cs
    else cleanLoop rooted (c :: stack) cs

/-- Models `path.Clean` on unix paths: the shortest lexically equivalent path,
`.` for the empty input, with a leading `/` preserved. -/
def goClean (path : String) : String :=
  if path = "" then "."
  else
    let rooted := headIs path '/'
    let comps := (cleanLoop rooted [] (splitSlash [] path.data)).reverse
    let body := String.intercalate "/" comps
    if rooted then "/" ++ body
    else if body = "" then "." else body

/-- Models `filepath.IsAbs` on unix: the path begins with a slash. -/
def goIsAbs (path : String) : Bool :=
  headIs path '/'

/-- Models the two-argument form of `filepath.Join` used in `Add`: empty
leading elements are skipped and the slash-joined result is cleaned. -/
def join2 (a b : String) : String :=
  if a = "" then (if b = "" then "" else goClean b)
  else goClean (a ++ "/" ++ b)

/-- Models `filepath.Abs`: an absolute path is cleaned, a relative path is
joined onto the current working directory. -/
def goAbs (cwd path : String) : String :=
  if goIsAbs path then goClean path else join2 cwd path

/-- The tilde-expansion step of `Add` (`src/main.go` lines 77 to 84): when the
raw path starts with `~`, the remainder after the first byte is joined onto
the home directory; failure of `os.UserHomeDir` aborts the operation. -/
def expandTilde (env : Env) (path : String) : Except BmError String :=
  if headIs path '~' then
    match env.home with
    | none => Except.error BmError.homeDirFailed
    | some h => Except.ok (join2 h (strTail path))
  else Except.ok path

/-- The tail of `Add` after the existence check (`src/main.go` lines 91 to
109): canonicalise to an absolute path, reject when some bookmark already
stores that exact path (surfacing the conflicting name), otherwise append the
new record.  The returned pair is (error from the method, resulting bookmark
slice). -/
def insertChecked (env : Env) (s : List Bookmark) (name p : String) :
    Option BmError × List Bookmark :=
  let absPath := goAbs env.cwd p
  match s.find? (fun b => b.path == absPath) with
  | some b => (some (BmError.duplicatePath b.name), s)
  | none => (none, s ++ [{ name := name, path := absPath }])

/-- Models `(*BookmarkStore).Add` (`src/main.go` lines 68 to 110): reject a
duplicate name (surfacing the path of the first bookmark carrying it), expand
a leading tilde, reject a path whose stat error is specifically
non-existence, then canonicalise, reject a duplicate path and append.  The
final `Save` is treated as succeeding; persistence is outside the model. -/
def Add (env : Env) (s : List Bookmark) (name rawPath : String) :
    Option BmError × List Bookmark :=
  match s.find? (fun b => b.name == name) with
  | some b => (some (BmError.duplicateName name b.path), s)
  | none =>
    match expandTilde env rawPath with
    | Except.error e => (some e, s)
    | Except.ok p =>
      if env.stat p = StatResult.notExist then (some (BmError.pathNotFound p), s)
      else insertChecked env s name p

/-- Models `(*BookmarkStore).Remove` (`src/main.go` lines 113 to 121): the
loop deletes the first record whose name matches exactly, keeping all other
records in order; with no match the slice is unchanged and an error is
returned. -/
def Remove : List Bookmark → String → Option BmError × List Bookmark
  | [], name => (some (BmError.bookmarkNotFound name), [])
  | b :: rest, name =>
    if b.name == name then (none, rest)
    else
      let r := Remove rest name
      (r.1, b :: r.2)

/-- Models `(*BookmarkStore).Get` (`src/main.go` lines 124 to 131): return the
path of the first record whose name matches exactly, or an error. -/
def Get : List Bookmark → String → Except BmError String
  | [], name => Except.error (BmError.bookmarkNotFound name)
  | b :: rest, name =>
    if b.name == name then Except.ok b.path else Get rest name

/-- Abstract syntax of a parsed JSON document, the input and output of the
`encoding/json` calls in `NewBookmarkStore` and `Save`. -/
inductive Json
  | null
  | bool (b : Bool)
  | num (n : Int)
  | str (s : String)
  | arr (elems : List Json)
  | obj (fields : List (String × Json))
deriving Repr

/-- ASCII lower-casing of one character, for the case-insensitive fallback of
`encoding/json` field matching. -/
def foldChar (c : Char) : Char :=
  if c.toNat ≥ 65 ∧ c.toNat ≤ 90 then Char.ofNat (c.toNat + 32) else c

/-- Whether an incoming object key selects the struct field with the given
json tag: `encoding/json` accepts an exact match and falls back to a
case-insensitive match. -/
def keyMatches (k tag : String) : Bool :=
  k.toList.map foldChar == tag.toList.map foldChar

/-- Decoding a JSON value into a Go `string` field: a JSON string sets the
field, `null` leaves it unchanged (`none`), anything else is a type error. -/
def decodeJsonString : Json → Except String (Option String)
  | Json.null => Except.ok none
  | Json.str s => Except.ok (some s)
  | _ => Except.error "cannot unmarshal value into field of type string"

/-- Decoding the keys of a JSON object into a `Bookmark` value, starting from
the given record: keys matching the tags `name` and `path` must carry string
values, unknown keys are ignored. -/
def decodeBookmarkFields : Bookmark → List (String × Json) → Except String Bookmark
  | b, [] => Except.ok b
  | b, (k, v) :: fs =>
    if keyMatches k "name" then
      match decodeJsonString v with
      | Except.error e => Except.error e
      | Except.ok none => decodeBookmarkFields b fs
      | Except.ok (some s) => decodeBookmarkFields { b with name := s } fs
    else if keyMatches k "path" then
      match decodeJsonString v with
      | Except.error e => Except.error e
      | Except.ok none => decodeBookmarkFields b fs
      | Except.ok (some s) => decodeBookmarkFields { b with path := s } fs
    else decodeBookmarkFields b fs

/-- Decoding one array element into a `Bookmark`: an object is decoded field
by field starting from the zero value, `null` is a no-op yielding the zero
value, anything else is a type error.  Absent keys keep the zero value; they
are not an error. -/
def decodeBookmark : Json → Except String Bookmark
  | Json.null => Except.ok { name := "", path := "" }
  | Json.obj fs => decodeBookmarkFields { name := "", path := "" } fs
  | _ => Except.error "cannot unmarshal value into element of type Bookmark"

/-- Decoding a list of array elements into bookmarks, failing at the first
element that fails. -/
def decodeBookmarkArr : List Json → Except String (List Bookmark)
  | [] => Except.ok []
  | j :: js =>
    match decodeBookmark j with
    | Except.error e => Except.error e
    | Except.ok b =>
      match decodeBookmarkArr js with
      | Except.error e => Except.error e
      | Except.ok bs => Except.ok (b :: bs)

/-- Decoding a JSON value into the `Bookmarks []Bookmark` field: an array is
decoded elementwise, `null` sets the slice to nil (an empty collection),
anything else is a type error. -/
def decodeBookmarks : Json → Except String (List Bookmark)
  | Json.null => Except.ok []
  | Json.arr es => decodeBookmarkArr es
  | _ => Except.error "cannot unmarshal value into field of type list of Bookmark"

/-- Decoding the keys of the top-level JSON object into the store: keys
matching the tag `bookmarks` decode into the bookmark slice, unknown keys are
ignored. -/
def unmarshalStoreFields : List Bookmark → List (String × Json) → Except String (List Bookmark)
  | acc, [] => Except.ok acc
  | acc, (k, v) :: fs =>
    if keyMatches k "bookmarks" then
      match decodeBookmarks v with
      | Except.error e => Except.error e
      | Except.ok bs => unmarshalStoreFields bs fs
    else unmarshalStoreFields acc fs

/-- Models the `json.Unmarshal` call of `NewBookmarkStore` (`src/main.go`
line 45) on an already-parsed document, decoding into a store whose bookmark
slice starts out empty: the document must be an object (or `null`, a no-op);
a key matching `bookmarks` must hold an array of records; unknown keys at
either level are ignored, and absent keys leave the zero values in place. -/
def unmarshalStore : Json → Except String (List Bookmark)
  | Json.null => Except.ok []
  | Json.obj fs => unmarshalStoreFields [] fs
  | _ => Except.error "cannot unmarshal value into BookmarkStore"

/-- Serialisation of one record as written by `Save`: an object with the
`name` and `path` keys, in struct field order. -/
def marshalBookmark (b : Bookmark) : Json :=
  Json.obj [("name", Json.str b.name), ("path", Json.str b.path)]

/-- Models the `json.MarshalIndent` call of `Save` (`src/main.go` line 55) at
the level of the JSON document it emits: the single exported, json-tagged
field `bookmarks` holding the array of records in slice order (the unexported
`filePath` field is not serialised). -/
def marshalStore (bs : List Bookmark) : Json :=
  Json.obj [("bookmarks", Json.arr (bs.map marshalBookmark))]

/-- Whether an `Except` computation succeeded. -/
def exceptIsOk {ε α : Type} : Except ε α → Bool
  | Except.ok _ => true
  | Except.error _ => false

/-- Models the `go` branch of `main` when the bookmark name is omitted
(`src/main.go` lines 206 to 208): the code runs `fmt.Print(os.UserHomeDir())`.
`os.UserHomeDir` returns two values, so both become operands of `fmt.Print`;
when the lookup succeeds the second operand is a nil error, which `fmt`
formats as `<nil>`, and no space is inserted after a string operand.  The
function returns the text written to standard output and the exit status of
the process, which falls off the end of `main` and exits 0. -/
def goCmdNoName (home : String) : String × Nat :=
  (home ++ "<nil>", 0)

/-- A concrete environment for witnesses: every path exists. -/
def env0 : Env :=
  { home := some "/h", cwd := "/", stat := fun _ => StatResult.ok }

/-- A concrete environment whose stat oracle always reports an error other
than non-existence (such as permission denied). -/
def envOtherErr : Env :=
  { home := some "/h", cwd := "/", stat := fun _ => StatResult.otherErr }

/-- A concrete environment whose home directory is `/home/u` and where every
path exists. -/
def envHomeU : Env :=
  { home := some "/home/u", cwd := "/", stat := fun _ => StatResult.ok }

/-- One store mutation, as issued by one CLI invocation. -/
inductive Op
  | add (name rawPath : String)
  | remove (name : String)

/-- Dispatch one mutation against the current bookmark slice. -/
def applyOp (env : Env) (s : List Bookmark) : Op → Option BmError × List Bookmark
  | Op.add name rawPath => Add env s name rawPath
  | Op.remove name => Remove s name

/-- Run a sequence of mutations, each under the environment of its own
invocation, demanding that every one of them succeeds; `none` as soon as any
operation reports an error. -/
def runOps : List (Env × Op) → List Bookmark → Option (List Bookmark)
  | [], s => some s
  | (env, op) :: rest, s =>
    match applyOp env s op with
    | (none, s2) => runOps rest s2
    | (some _, _) => none

theorem find?_name_none (s : List Bookmark) (name : String)
    (h : s.find? (fun b => b.name == name) = none) : ∀ x ∈ s, x.name ≠ name := by
  intro x hx
  have hb := List.find?_eq_none.mp h x hx
  simpa using hb

theorem add_success_spec (env : Env) (s : List Bookmark) (name rawPath p : String)
    (hname : s.find? (fun b => b.name == name) = none)
    (hexp : expandTilde env rawPath = Except.ok p)
    (hstat : env.stat p ≠ StatResult.notExist)
    (hpath : s.find? (fun b => b.path == goAbs env.cwd p) = none) :
    Add env s name rawPath = (none, s ++ [{ name := name, path := goAbs env.cwd p }]) := by
  simp only [Add, hname, hexp, if_neg hstat, insertChecked, hpath]

/-- Claim C4: when some existing bookmark already carries the requested name,
`Add` fails with the duplicate-name error, the error carries the current path
of that bookmark, and the collection is returned unchanged.  The hypothesis
exhibits the first bookmark found with that name. -/
theorem add_rejects_duplicate_name (env : Env) (s : List Bookmark)
    (name rawPath : String) (b : Bookmark)
    (hfind : s.find? (fun x => x.name == name) = some b) :
    b ∈ s ∧ b.name = name ∧
      Add env s name rawPath = (some (BmError.duplicateName name b.path), s) := by
  refine ⟨List.mem_of_find?_eq_some hfind, ?_, ?_⟩
  · simpa using List.find?_some hfind
  · simp only [Add, hfind]

theorem add_rejects_duplicate_name_witness :
    (⟨"work", "/a"⟩ : Bookmark) ∈ ([⟨"work", "/a"⟩] : List Bookmark) ∧
    (⟨"work", "/a"⟩ : Bookmark).name = "work" ∧
    Add env0 [⟨"work", "/a"⟩] "work" "/b" =
      (some (BmError.duplicateName "work" "/a"), [⟨"work", "/a"⟩]) :=
  add_rejects_duplicate_name env0 [⟨"work", "/a"⟩] "work" "/b" ⟨"work", "/a"⟩ (by decide)

/-- Claim C5: when the name is fresh and the expanded path passes the
existence check, but its canonical absolute form equals the stored path of an
existing bookmark, `Add` fails with the duplicate-path error carrying the
conflicting bookmark's name, and the collection is returned unchanged. -/
theorem add_rejects_duplicate_path (env : Env) (s : List Bookmark)
    (name rawPath p : String) (b : Bookmark)
    (hname : s.find? (fun x => x.name == name) = none)
    (hexp : expandTilde env rawPath = Except.ok p)
    (hstat : env.stat p ≠ StatResult.notExist)
    (hdup : s.find? (fun x => x.path == goAbs env.cwd p) = some b) :
    b ∈ s ∧ b.path = goAbs env.cwd p ∧
      Add env s name rawPath = (some (BmError.duplicatePath b.name), s) := by
  refine ⟨List.mem_of_find?_eq_some hdup, ?_, ?_⟩
  · simpa using List.find?_some hdup
  · simp only [Add, hname, hexp, if_neg hstat, insertChecked, hdup]

theorem add_rejects_duplicate_path_witness :
    (⟨"work", "/a"⟩ : Bookmark) ∈ ([⟨"work", "/a"⟩] : List Bookmark) ∧
    (⟨"work", "/a"⟩ : Bookmark).path = goAbs env0.cwd "/a" ∧
    Add env0 [⟨"work", "/a"⟩] "office" "/a" =
      (some (BmError.duplicatePath "work"), [⟨"work", "/a"⟩]) :=
  add_rejects_duplicate_path env0 [⟨"work", "/a"⟩] "office" "/a" "/a" ⟨"work", "/a"⟩
    (by decide) rfl (by decide) (by decide)

/-- Claim C10: with a fresh name and an expanded path `p`, `Add` rejects with
the path-not-found error exactly when the stat of `p` reports non-existence;
a stat success or any other stat failure proceeds to canonicalisation and the
duplicate-path check and insertion (`insertChecked`). -/
theorem add_stat_dispatch (env : Env) (s : List Bookmark) (name rawPath p : String)
    (hname : s.find? (fun x => x.name == name) = none)
    (hexp : expandTilde env rawPath = Except.ok p) :
    (env.stat p = StatResult.notExist →
      Add env s name rawPath = (some (BmError.pathNotFound p), s)) ∧
    (env.stat p = StatResult.otherErr →
      Add env s name rawPath = insertChecked env s name p) ∧
    (env.stat p = StatResult.ok →
      Add env s name rawPath = insertChecked env s name p) := by
  refine ⟨fun h => ?_, fun h => ?_, fun h => ?_⟩
  · simp only [Add, hname, hexp, if_pos h]
  · have hne : env.stat p ≠ StatResult.notExist := by rw [h]; intro hc; cases hc
    simp only [Add, hname, hexp, if_neg hne]
  · have hne : env.stat p ≠ StatResult.notExist := by rw [h]; intro hc; cases hc
    simp only [Add, hname, hexp, if_neg hne]

theorem add_stat_dispatch_witness :
    (envOtherErr.stat "/x" = StatResult.notExist →
      Add envOtherErr [] "x" "/x" = (some (BmError.pathNotFound "/x"), [])) ∧
    (envOtherErr.stat "/x" = StatResult.otherErr →
      Add envOtherErr [] "x" "/x" = insertChecked envOtherErr [] "x" "/x") ∧
    (envOtherErr.stat "/x" = StatResult.ok →
      Add envOtherErr [] "x" "/x" = insertChecked envOtherErr [] "x" "/x") :=
  add_stat_dispatch envOtherErr [] "x" "/x" "/x" rfl rfl

/-- Claim C7: a leading tilde is expanded to the home directory before
validation and storage: with home `/home/u`, an existing `/home/u`, a fresh
name and no bookmark already storing `/home/u`, the call
`Add "home" "~"` succeeds and stores exactly the path `/home/u`. -/
theorem add_tilde_expansion (env : Env) (s : List Bookmark)
    (hhome : env.home = some "/home/u")
    (hstat : env.stat "/home/u" ≠ StatResult.notExist)
    (hname : s.find? (fun b => b.name == "home") = none)
    (hpath : s.find? (fun b => b.path == "/home/u") = none) :
    Add env s "home" "~" = (none, s ++ [{ name := "home", path := "/home/u" }]) := by
  have hexp : expandTilde env "~" = Except.ok "/home/u" := by
    simp only [expandTilde, hhome]
    rfl
  exact add_success_spec env s "home" "~" "/home/u" hname hexp hstat hpath

theorem add_tilde_expansion_witness :
    Add envHomeU [] "home" "~" = (none, [{ name := "home", path := "/home/u" }]) :=
  add_tilde_expansion envHomeU [] rfl (by decide) rfl rfl

/-- Claim C8 counterexample: a successful `Add` with the empty string as the
name goes through and stores a record whose name is empty, so the claimed
invariant that every stored name is non-empty fails. -/
theorem add_accepts_empty_name_cex :
    runOps [(env0, Op.add "" "/x")] [] = some [{ name := "", path := "/x" }] ∧
    ({ name := "", path := "/x" } : Bookmark).name = "" :=
  ⟨by decide, rfl⟩

/-- Claim C8 (amended): `Add` performs no emptiness validation on the name;
the empty string is accepted like any other fresh name, so stored names need
not be non-empty. -/
theorem add_no_empty_name_check (env : Env) (s : List Bookmark) (rawPath p : String)
    (hname : s.find? (fun b => b.name == "") = none)
    (hexp : expandTilde env rawPath = Except.ok p)
    (hstat : env.stat p ≠ StatResult.notExist)
    (hpath : s.find? (fun b => b.path == goAbs env.cwd p) = none) :
    Add env s "" rawPath = (none, s ++ [{ name := "", path := goAbs env.cwd p }]) :=
  add_success_spec env s "" rawPath p hname hexp hstat hpath

theorem add_no_empty_name_check_witness :
    Add env0 [] "" "/x" = (none, [{ name := "", path := goAbs env0.cwd "/x" }]) :=
  add_no_empty_name_check env0 [] "/x" "/x" rfl rfl (by decide) rfl

theorem remove_no_match (s : List Bookmark) (name : String)
    (h : ∀ x ∈ s, x.name ≠ name) :
    Remove s name = (some (BmError.bookmarkNotFound name), s) := by
  induction s with
  | nil => rfl
  | cons b rest ih =>
    have hb : (b.name == name) = false := by simp [h b (List.mem_cons_self b rest)]
    have ih2 := ih (fun x hx => h x (List.mem_cons_of_mem b hx))
    simp [Remove, hb, ih2]

theorem remove_first_hit (pre : List Bookmark) (b : Bookmark) (post : List Bookmark)
    (name : String) (hb : b.name = name) (hpre : ∀ x ∈ pre, x.name ≠ name) :
    Remove (pre ++ b :: post) name = (none, pre ++ post) := by
  induction pre with
  | nil => simp [Remove, hb]
  | cons a rest ih =>
    have ha : (a.name == name) = false := by simp [hpre a (List.mem_cons_self a rest)]
    have ih2 := ih (fun x hx => hpre x (List.mem_cons_of_mem a hx))
    simp [Remove, ha, ih2]

theorem get_no_match (s : List Bookmark) (name : String)
    (h : ∀ x ∈ s, x.name ≠ name) :
    Get s name = Except.error (BmError.bookmarkNotFound name) := by
  induction s with
  | nil => rfl
  | cons b rest ih =>
    have hb : (b.name == name) = false := by simp [h b (List.mem_cons_self b rest)]
    have ih2 := ih (fun x hx => h x (List.mem_cons_of_mem b hx))
    simp [Get, hb, ih2]

/-- Claim C6: on a store with pairwise-distinct names, `Remove` fails with
the not-found error and leaves the collection unchanged when no name matches
exactly; otherwise it removes exactly the first matching record, keeps the
others in their relative order, and a subsequent `Get` of that name fails
with the not-found error. -/
theorem remove_spec (s : List Bookmark) (name : String)
    (hnd : (s.map Bookmark.name).Nodup) :
    ((∀ x ∈ s, x.name ≠ name) →
      Remove s name = (some (BmError.bookmarkNotFound name), s)) ∧
    (∀ pre b post, s = pre ++ b :: post → b.name = name →
      Remove s name = (none, pre ++ post) ∧
      Get (pre ++ post) name = Except.error (BmError.bookmarkNotFound name)) := by
  constructor
  · exact remove_no_match s name
  · intro pre b post hsplit hbname
    subst hsplit
    have hmid : (b.name :: (pre.map Bookmark.name ++ post.map Bookmark.name)).Nodup := by
      rw [← List.nodup_middle]
      simpa using hnd
    have hnotin := (List.nodup_cons.mp hmid).1
    have hpre : ∀ x ∈ pre, x.name ≠ name := by
      intro x hx heq
      apply hnotin
      apply List.mem_append_left
      rw [hbname, ← heq]
      exact List.mem_map_of_mem Bookmark.name hx
    have hpost : ∀ x ∈ post, x.name ≠ name := by
      intro x hx heq
      apply hnotin
      apply List.mem_append_right
      rw [hbname, ← heq]
      exact List.mem_map_of_mem Bookmark.name hx
    refine ⟨remove_first_hit pre b post name hbname hpre, ?_⟩
    apply get_no_match
    intro x hx
    rcases List.mem_append.mp hx with h1 | h2
    · exact hpre x h1
    · exact hpost x h2

theorem remove_spec_witness :
    Remove [⟨"w", "/a"⟩, ⟨"z", "/b"⟩] "w" = (none, [⟨"z", "/b"⟩]) ∧
    Get [(⟨"z", "/b"⟩ : Bookmark)] "w" = Except.error (BmError.bookmarkNotFound "w") :=
  (remove_spec [⟨"w", "/a"⟩, ⟨"z", "/b"⟩] "w" (by decide)).2
    [] ⟨"w", "/a"⟩ [⟨"z", "/b"⟩] rfl rfl

theorem add_ok_state (env : Env) (s s2 : List Bookmark) (name rawPath : String)
    (h : Add env s name rawPath = (none, s2)) :
    ∃ p, (∀ x ∈ s, x.name ≠ name) ∧ (∀ x ∈ s, x.path ≠ p) ∧
      s2 = s ++ [{ name := name, path := p }] := by
  cases hf : s.find? (fun b => b.name == name) with
  | some b => simp only [Add, hf] at h; simp at h
  | none =>
    cases hexp : expandTilde env rawPath with
    | error e => simp only [Add, hf, hexp] at h; simp at h
    | ok p =>
      by_cases hs : env.stat p = StatResult.notExist
      · simp only [Add, hf, hexp, if_pos hs] at h; simp at h
      · cases hp : s.find? (fun b => b.path == goAbs env.cwd p) with
        | some b =>
          simp only [Add, hf, hexp, if_neg hs, insertChecked, hp] at h
          simp at h
        | none =>
          simp only [Add, hf, hexp, if_neg hs, insertChecked, hp] at h
          refine ⟨goAbs env.cwd p, find?_name_none s name hf, ?_, ?_⟩
          · intro x hx
            have hb := List.find?_eq_none.mp hp x hx
            simpa using hb
          · injection h with h1 h2
            exact h2.symm

theorem nodup_append_single {α : Type} (l : List α) (a : α)
    (hl : l.Nodup) (ha : a ∉ l) : (l ++ [a]).Nodup := by
  rw [List.nodup_middle]
  simp [hl, ha]

theorem distinct_after_add (env : Env) (s s2 : List Bookmark) (name rawPath : String)
    (h : Add env s name rawPath = (none, s2))
    (h1 : (s.map Bookmark.name).Nodup) (h2 : (s.map Bookmark.path).Nodup) :
    (s2.map Bookmark.name).Nodup ∧ (s2.map Bookmark.path).Nodup := by
  obtain ⟨p, hn, hp, rfl⟩ := add_ok_state env s s2 name rawPath h
  constructor
  · rw [List.map_append]
    apply nodup_append_single _ _ h1
    intro hmem
    obtain ⟨x, hx, hxe⟩ := List.mem_map.mp hmem
    exact hn x hx hxe
  · rw [List.map_append]
    apply nodup_append_single _ _ h2
    intro hmem
    obtain ⟨x, hx, hxe⟩ := List.mem_map.mp hmem
    exact hp x hx hxe

theorem remove_state_sublist (s : List Bookmark) (name : String) :
    List.Sublist (Remove s name).2 s := by
  induction s with
  | nil => simp [Remove]
  | cons b rest ih =>
    by_cases hb : (b.name == name) = true
    · have hr : Remove (b :: rest) name = (none, rest) := by simp [Remove, hb]
      rw [hr]
      exact List.sublist_cons_self b rest
    · have hr : Remove (b :: rest) name =
          ((Remove rest name).1, b :: (Remove rest name).2) := by
        simp [Remove, hb]
      rw [hr]
      exact List.Sublist.cons₂ b ih

theorem distinct_after_remove (s s2 : List Bookmark) (name : String) (e : Option BmError)
    (h : Remove s name = (e, s2))
    (h1 : (s.map Bookmark.name).Nodup) (h2 : (s.map Bookmark.path).Nodup) :
    (s2.map Bookmark.name).Nodup ∧ (s2.map Bookmark.path).Nodup := by
  have hsub : List.Sublist s2 s := by
    have hrs := remove_state_sublist s name
    rw [h] at hrs
    exact hrs
  exact ⟨h1.sublist (hsub.map Bookmark.name), h2.sublist (hsub.map Bookmark.path)⟩

theorem runOps_preserves (ops : List (Env × Op)) (s0 s : List Bookmark)
    (h : runOps ops s0 = some s)
    (h1 : (s0.map Bookmark.name).Nodup) (h2 : (s0.map Bookmark.path).Nodup) :
    (s.map Bookmark.name).Nodup ∧ (s.map Bookmark.path).Nodup := by
  induction ops generalizing s0 with
  | nil =>
    simp [runOps] at h
    subst h
    exact ⟨h1, h2⟩
  | cons eo rest ih =>
    obtain ⟨env, op⟩ := eo
    simp only [runOps] at h
    cases hap : applyOp env s0 op with
    | mk e s1 =>
      rw [hap] at h
      cases e with
      | none =>
        cases op with
        | add name rawPath =>
          obtain ⟨g1, g2⟩ := distinct_after_add env s0 s1 name rawPath hap h1 h2
          exact ih s1 h g1 g2
        | remove name =>
          obtain ⟨g1, g2⟩ := distinct_after_remove s0 s1 name none hap h1 h2
          exact ih s1 h g1 g2
      | some err => simp at h

/-- Claim C1: any sequence of successful `Add` and `Remove` operations run
from the empty store, each under the environment of its own invocation,
yields a collection in which the names are pairwise distinct and the stored
absolute paths are pairwise distinct. -/
theorem store_uniqueness_invariant (ops : List (Env × Op)) (s : List Bookmark)
    (h : runOps ops [] = some s) :
    (s.map Bookmark.name).Nodup ∧ (s.map Bookmark.path).Nodup :=
  runOps_preserves ops [] s h (by simp) (by simp)

theorem store_uniqueness_invariant_witness :
    (([⟨"b", "/y"⟩] : List Bookmark).map Bookmark.name).Nodup ∧
    (([⟨"b", "/y"⟩] : List Bookmark).map Bookmark.path).Nodup :=
  store_uniqueness_invariant
    [(env0, Op.add "a" "/x"), (env0, Op.add "b" "/y"), (env0, Op.remove "a")]
    [⟨"b", "/y"⟩] (by decide)

theorem keyMatches_name_name : keyMatches "name" "name" = true := by decide

theorem keyMatches_path_name : keyMatches "path" "name" = false := by decide

theorem keyMatches_path_path : keyMatches "path" "path" = true := by decide

theorem keyMatches_bookmarks : keyMatches "bookmarks" "bookmarks" = true := by decide

/-- Claim C2 counterexample: an empty top-level JSON object, which lacks the
required `bookmarks` key, deserializes without error to the empty collection,
and a record object without the `name` and `path` keys decodes without error
to a record of empty strings; the claim requires both inputs to fail. -/
theorem unmarshal_missing_fields_cex :
    unmarshalStore (Json.obj []) = Except.ok [] ∧
    decodeBookmark (Json.obj []) = Except.ok { name := "", path := "" } :=
  ⟨rfl, rfl⟩

/-- Claim C2 (amended): deserialization tolerates unknown or extra fields at
both the store level and the record level, and fails on wrong types; but
missing required fields are also tolerated rather than failing: a document
without the `bookmarks` key decodes to the empty collection and a record
without `name` or `path` keeps the empty-string zero values. -/
theorem unmarshal_leniency (k : String) (v : Json) (fs : List (String × Json))
    (b : Bookmark) (k2 : String) (v2 : Json) (fs2 : List (String × Json))
    (hk : keyMatches k "bookmarks" = false)
    (hk2 : keyMatches k2 "name" = false) (hk3 : keyMatches k2 "path" = false) :
    unmarshalStore (Json.obj ((k, v) :: fs)) = unmarshalStore (Json.obj fs) ∧
    decodeBookmarkFields b ((k2, v2) :: fs2) = decodeBookmarkFields b fs2 ∧
    unmarshalStore (Json.obj []) = Except.ok [] ∧
    decodeBookmark (Json.obj []) = Except.ok { name := "", path := "" } ∧
    exceptIsOk (unmarshalStore (Json.num 3)) = false ∧
    exceptIsOk (unmarshalStore (Json.obj [("bookmarks", Json.num 3)])) = false ∧
    exceptIsOk (decodeBookmark (Json.str "x")) = false ∧
    exceptIsOk (decodeBookmarkFields { name := "", path := "" }
      [("name", Json.num 1)]) = false := by
  refine ⟨?_, ?_, rfl, rfl, rfl, rfl, rfl, rfl⟩
  · simp [unmarshalStore, unmarshalStoreFields, hk]
  · simp [decodeBookmarkFields, hk2, hk3]

theorem unmarshal_leniency_witness :
    unmarshalStore (Json.obj [("version", Json.num 1)]) = unmarshalStore (Json.obj []) ∧
    decodeBookmarkFields { name := "", path := "" } [("extra", Json.null)] =
      decodeBookmarkFields { name := "", path := "" } [] ∧
    unmarshalStore (Json.obj []) = Except.ok [] ∧
    decodeBookmark (Json.obj []) = Except.ok { name := "", path := "" } ∧
    exceptIsOk (unmarshalStore (Json.num 3)) = false ∧
    exceptIsOk (unmarshalStore (Json.obj [("bookmarks", Json.num 3)])) = false ∧
    exceptIsOk (decodeBookmark (Json.str "x")) = false ∧
    exceptIsOk (decodeBookmarkFields { name := "", path := "" }
      [("name", Json.num 1)]) = false :=
  unmarshal_leniency "version" (Json.num 1) [] { name := "", path := "" }
    "extra" Json.null [] (by decide) (by decide) (by decide)

/-- Claim C3: serializing any collection, including the empty one, with the
serialization of `Save` and deserializing the result with the loader yields
the same records in the same order. -/
theorem save_load_round_trip (bs : List Bookmark) :
    unmarshalStore (marshalStore bs) = Except.ok bs := by
  have harr : decodeBookmarkArr (bs.map marshalBookmark) = Except.ok bs := by
    induction bs with
    | nil => rfl
    | cons b rest ih =>
      cases b with
      | mk n p =>
        simp [decodeBookmarkArr, marshalBookmark, decodeBookmark, decodeBookmarkFields,
          decodeJsonString, keyMatches_name_name, keyMatches_path_name,
          keyMatches_path_path, ih]
  simp [unmarshalStore, marshalStore, unmarshalStoreFields, decodeBookmarks,
    keyMatches_bookmarks, harr]

/-- Claim C9: evaluating the no-name `go` branch with home directory
`/home/u`: the process writes the home directory immediately followed by the
formatted nil error to standard output and exits 0, which is not the bare
path the claim states. -/
theorem go_no_name_output :
    goCmdNoName "/home/u" = ("/home/u<nil>", 0) ∧ "/home/u<nil>" ≠ "/home/u" :=
  ⟨rfl, by decide⟩

end Bm
